import Mathlib

/-!
# Verification of the multi-row window-list layout core (`src/helpers.js`)

Shallow embedding of the pure geometry helpers of the applet.  JavaScript
numbers are modelled as exact integers (`ℤ`) for pixel quantities and exact
rationals (`ℚ`) where the source multiplies by fractional constants
(`0.25`, `0.4`, `3.5`) or halves rectangle extents.  `Math.floor(a / b)` on
integers is floor division `Int.fdiv`; `Math.ceil(a / b)` is `ceilDiv`
below.  A JavaScript division by zero produces a non-finite value
(`Infinity` / `NaN`); wherever the source can actually perform one we model
the non-finite outcome with `Option` (`none` = non-finite result).
-/

namespace MultiRow

/-- `Math.ceil(a / b)` for integers, `b ≠ 0`: `⌈a/b⌉ = -⌊(-a)/b⌋`. -/
def ceilDiv (a b : ℤ) : ℤ := -((-a).fdiv b)

/-- Embeds `calcRowHeight(panelHeight, numberOfRows, verticalMargin = 0)`:
`Math.floor((panelHeight - verticalMargin * numberOfRows) / numberOfRows)`.
When `numberOfRows = 0` the JS division yields `Infinity`/`NaN` (never a
finite number), modelled as `none`. -/
def calcRowHeight (panelHeight numberOfRows verticalMargin : ℤ) : Option ℤ :=
  if numberOfRows = 0 then none
  else some ((panelHeight - verticalMargin * numberOfRows).fdiv numberOfRows)

/-- Embeds `calcButtonHeight`, which just forwards to `calcRowHeight`. -/
def calcButtonHeight (panelHeight numberOfRows verticalMargin : ℤ) : Option ℤ :=
  calcRowHeight panelHeight numberOfRows verticalMargin

/-- Embeds `calcAdaptiveRowCount(containerWidth, buttonCount, buttonWidth, maxRows)`.
The guard makes every later divisor positive, so no division by zero occurs. -/
def calcAdaptiveRowCount (containerWidth buttonCount buttonWidth maxRows : ℤ) : ℤ :=
  if buttonCount ≤ 0 ∨ containerWidth ≤ 0 ∨ buttonWidth ≤ 0 ∨ maxRows ≤ 0 then 1
  else
    let buttonsPerRow := max 1 (containerWidth.fdiv buttonWidth)
    let needed := ceilDiv buttonCount buttonsPerRow
    max 1 (min needed maxRows)

/-- Embeds `calcButtonWidth(containerWidth, visibleCount, buttonWidth, maxRows, minWidth)`.
After the guard `containerWidth > 0`; if `buttonWidth = 0` the JS code computes
`buttonsPerRow = Math.max(1, Math.floor(containerWidth / 0)) = Infinity`, hence
`maxVisible = Infinity` and `visibleCount <= maxVisible` always holds, so it
returns `buttonWidth` — that branch is spelled out explicitly here. -/
def calcButtonWidth (containerWidth visibleCount buttonWidth maxRows minWidth : ℤ) : ℤ :=
  if visibleCount ≤ 0 ∨ containerWidth ≤ 0 ∨ maxRows ≤ 0 then buttonWidth
  else if buttonWidth = 0 then buttonWidth
  else
    let buttonsPerRow := max 1 (containerWidth.fdiv buttonWidth)
    let maxVisible := buttonsPerRow * maxRows
    if visibleCount ≤ maxVisible then buttonWidth
    else
      let neededPerRow := ceilDiv visibleCount maxRows
      max minWidth (containerWidth.fdiv neededPerRow)

/-- Embeds `calcLayoutMode(computedRows)`. -/
def calcLayoutMode (computedRows : ℤ) : String :=
  if computedRows ≤ 1 then "spacious" else "compact"

/-- Embeds `calcAdaptiveFontSize(panelHeight, computedRows, verticalMargin = 0)`:
`0` for at most one row, otherwise `Math.max(6, Math.min(10, Math.floor(rowHeight / 3.5)))`.
`3.5` is exactly `7/2`, so rational arithmetic reproduces the JS doubles. -/
def calcAdaptiveFontSize (panelHeight computedRows verticalMargin : ℤ) : Option ℤ :=
  if computedRows ≤ 1 then some 0
  else (calcRowHeight panelHeight computedRows verticalMargin).map
    (fun rowHeight => max 6 (min 10 ⌊(rowHeight : ℚ) / (7 / 2)⌋))

/-- Embeds `calcAdaptiveIconSize(panelHeight, computedRows, overrideSize, verticalMargin = 0)`:
a positive override is returned as-is; otherwise
`Math.max(12, Math.floor(rowHeight * ratio))` with `ratio = 0.25` for at most
one row and `0.4` for two or more.  For every integer row height the double
products `rowHeight * 0.25` / `rowHeight * 0.4` floor to the same integers as
the exact rationals `1/4` and `2/5` used here. -/
def calcAdaptiveIconSize (panelHeight computedRows overrideSize verticalMargin : ℤ) : Option ℤ :=
  if 0 < overrideSize then some overrideSize
  else (calcRowHeight panelHeight computedRows verticalMargin).map
    (fun rowHeight =>
      max 12 ⌊(rowHeight : ℚ) * (if computedRows ≤ 1 then 1 / 4 else 2 / 5)⌋)

/-- JavaScript falsiness of a `string | null | undefined` value:
`null`/`undefined` and the empty string are falsy. -/
def jsFalsy : Option String → Bool
  | none => true
  | some s => s.isEmpty

/-- The backward loop of `calcGroupedInsertionIndex`:
`for (let i = existingAppIds.length - 1; i >= 0; i--) if (existingAppIds[i] === newAppId) return i + 1;`
`scanBack existing k n` models the loop with `i` ranging over `n-1, …, 0`;
falling through returns `existingAppIds.length`. -/
def scanBack (existing : List (Option String)) (k : Option String) : ℕ → ℕ
  | 0 => existing.length
  | n + 1 => if existing.get? n = some k then n + 1 else scanBack existing k n

/-- Embeds `calcGroupedInsertionIndex(existingAppIds, newAppId)`. -/
def calcGroupedInsertionIndex (existingAppIds : List (Option String))
    (newAppId : Option String) : ℕ :=
  if jsFalsy newAppId then existingAppIds.length
  else scanBack existingAppIds newAppId existingAppIds.length

/-- A child bounding rectangle `{x, y, width, height}` in container-local
coordinates (exact rationals; centers involve halving). -/
structure Rect where
  x : ℚ
  y : ℚ
  width : ℚ
  height : ℚ
deriving DecidableEq

/-- Squared Euclidean distance from the cursor to the center of a rect,
exactly as computed in the loop body of `calcDragInsertionIndex`. -/
def rectDist (r : Rect) (cursorX cursorY : ℚ) : ℚ :=
  let cx := r.x + r.width / 2
  let cy := r.y + r.height / 2
  let dx := cursorX - cx
  let dy := cursorY - cy
  dx * dx + dy * dy

/-- The scanning loop of `calcDragInsertionIndex`: state `(i, insertPos, minDist)`
with the source's update `if (dist < minDist || minDist == -1)`. -/
def dragLoop (cursorX cursorY : ℚ) :
    List Rect → ℤ → ℤ → ℚ → ℤ
  | [], _, insertPos, _ => insertPos
  | r :: rest, i, insertPos, minDist =>
    let dist := rectDist r cursorX cursorY
    if dist < minDist ∨ minDist = -1 then
      dragLoop cursorX cursorY rest (i + 1) i dist
    else
      dragLoop cursorX cursorY rest (i + 1) insertPos minDist

set_option linter.unusedVariables false in
/-- Embeds `calcDragInsertionIndex(childRects, cursorX, cursorY, isVertical)`.
`isVertical` is accepted but never read by the source. -/
def calcDragInsertionIndex (childRects : List Rect) (cursorX cursorY : ℚ)
    (isVertical : Bool) : ℤ :=
  dragLoop cursorX cursorY childRects 0 (-1) (-1)

/-! ## Arithmetic helper lemmas about floor and ceiling division -/

theorem lt_ceilDiv_iff {a b k : ℤ} (hb : 0 < b) : k < ceilDiv a b ↔ k * b < a := by
  rw [ceilDiv, lt_neg, Int.fdiv_eq_ediv _ hb.le, Int.ediv_lt_iff_lt_mul hb, neg_mul,
    neg_lt_neg_iff]

theorem le_mul_ceilDiv {a b : ℤ} (hb : 0 < b) : a ≤ ceilDiv a b * b := by
  have h := Int.ediv_mul_le (-a) hb.ne'
  rw [ceilDiv, Int.fdiv_eq_ediv _ hb.le, neg_mul]
  linarith

theorem ceilDiv_le_ceilDiv {a c b : ℤ} (hb : 0 < b) (h : a ≤ c) :
    ceilDiv a b ≤ ceilDiv c b := by
  have h2 : (-c).fdiv b ≤ (-a).fdiv b := by
    rw [Int.fdiv_eq_ediv _ hb.le, Int.fdiv_eq_ediv _ hb.le]
    exact Int.ediv_le_ediv hb (by omega)
  rw [ceilDiv, ceilDiv]
  omega

theorem ediv_le_ediv_of_le_divisor {a b c : ℤ} (ha : 0 ≤ a) (hb : 0 < b) (hbc : b ≤ c) :
    a / c ≤ a / b := by
  rw [Int.le_ediv_iff_mul_le hb]
  calc a / c * b ≤ a / c * c :=
        mul_le_mul_of_nonneg_left hbc (Int.ediv_nonneg ha (by omega))
    _ ≤ a := Int.ediv_mul_le a (by omega)

/-- On the shrink branch the narrowed width is strictly below the configured
width: `floor(containerWidth / ceil(visibleCount / maxRows)) < buttonWidth`. -/
theorem shrink_lt_buttonWidth {cw bw vc mr : ℤ} (hcw : 0 < cw) (hbw : 0 < bw)
    (hmr : 0 < mr) (hover : max 1 (cw.fdiv bw) * mr < vc) :
    cw.fdiv (ceilDiv vc mr) < bw := by
  have hfd : cw.fdiv bw = cw / bw := Int.fdiv_eq_ediv cw hbw.le
  rw [hfd] at hover
  have hbpr1 : (1 : ℤ) ≤ max 1 (cw / bw) := le_max_left _ _
  have hneed : max 1 (cw / bw) + 1 ≤ ceilDiv vc mr := by
    have := (lt_ceilDiv_iff hmr).mpr hover
    omega
  have hprodpos : (0 : ℤ) < max 1 (cw / bw) * mr := mul_pos (by omega) hmr
  have hvc : 0 < vc := by linarith
  have hceil_pos : 0 < ceilDiv vc mr := by
    refine (lt_ceilDiv_iff hmr).mpr ?_
    simpa using hvc
  rw [Int.fdiv_eq_ediv cw hceil_pos.le]
  have h1 : cw / ceilDiv vc mr ≤ cw / (max 1 (cw / bw) + 1) :=
    ediv_le_ediv_of_le_divisor hcw.le (by omega) hneed
  have h2 : cw / (max 1 (cw / bw) + 1) < bw := by
    rw [Int.ediv_lt_iff_lt_mul (by omega)]
    by_cases hc : 1 ≤ cw / bw
    · have hmax : max 1 (cw / bw) = cw / bw := by omega
      rw [hmax, mul_comm]
      exact Int.lt_ediv_add_one_mul_self cw hbw
    · have hmax : max 1 (cw / bw) = 1 := by omega
      have hcwbw : cw < bw := by
        by_contra hge
        push_neg at hge
        exact hc ((Int.le_ediv_iff_mul_le hbw).mpr (by omega))
      rw [hmax]
      omega
  omega

/-! ## Claim theorems -/

/-- C1: `calcAdaptiveRowCount` returns `1` on degenerate inputs
(`itemCount ≤ 0`, `containerWidth ≤ 0`, `itemWidth ≤ 0`, `maxRows ≤ 0`);
otherwise it returns `clamp(ceil(itemCount / max(1, floor(containerWidth / itemWidth))), 1, maxRows)`;
and it never returns zero or a negative number (it is a total function, so it
never errors). -/
theorem calcAdaptiveRowCount_spec (cw n bw mr : ℤ) :
    ((n ≤ 0 ∨ cw ≤ 0 ∨ bw ≤ 0 ∨ mr ≤ 0) → calcAdaptiveRowCount cw n bw mr = 1) ∧
    (0 < n → 0 < cw → 0 < bw → 0 < mr →
      calcAdaptiveRowCount cw n bw mr
        = min (max (ceilDiv n (max 1 (cw.fdiv bw))) 1) mr) ∧
    1 ≤ calcAdaptiveRowCount cw n bw mr := by
  refine ⟨fun h => ?_, fun h1 h2 h3 h4 => ?_, ?_⟩ <;> simp only [calcAdaptiveRowCount]
  · rw [if_pos h]
  · rw [if_neg (by omega)]
    omega
  · split_ifs <;> omega

/-- C1 witness: both branches of the row planner at concrete inputs. -/
theorem calcAdaptiveRowCount_spec_witness :
    calcAdaptiveRowCount (-5) 3 150 2 = 1 ∧
    calcAdaptiveRowCount 1200 25 150 2
      = min (max (ceilDiv 25 (max 1 ((1200 : ℤ).fdiv 150))) 1) 2 :=
  ⟨(calcAdaptiveRowCount_spec (-5) 3 150 2).1 (by omega),
   (calcAdaptiveRowCount_spec 1200 25 150 2).2.1 (by omega) (by omega) (by omega) (by omega)⟩

/-- C2: `calcButtonWidth` returns the configured width on degenerate inputs
(`visibleCount ≤ 0`, `containerWidth ≤ 0`, `maxRows ≤ 0`) and whenever the
visible count is at most `max(1, floor(containerWidth / configuredWidth)) * maxRows`
(the exact boundary counts as fitting); otherwise it returns
`max(minWidth, floor(containerWidth / ceil(visibleCount / maxRows)))`.
The non-degenerate branches are stated for `configuredWidth ≠ 0`, where the
claim's capacity expression divides by `configuredWidth`; at
`configuredWidth = 0` the JS capacity is `Infinity`, the count always fits and
the code returns the configured width (see `helpers_never_throw`). -/
theorem calcButtonWidth_spec (cw vc bw mr mw : ℤ) :
    ((vc ≤ 0 ∨ cw ≤ 0 ∨ mr ≤ 0) → calcButtonWidth cw vc bw mr mw = bw) ∧
    (0 < vc → 0 < cw → 0 < mr → bw ≠ 0 →
      vc ≤ max 1 (cw.fdiv bw) * mr → calcButtonWidth cw vc bw mr mw = bw) ∧
    (0 < vc → 0 < cw → 0 < mr → bw ≠ 0 →
      max 1 (cw.fdiv bw) * mr < vc →
      calcButtonWidth cw vc bw mr mw = max mw (cw.fdiv (ceilDiv vc mr))) := by
  refine ⟨fun h => ?_, fun h1 h2 h3 h4 h5 => ?_, fun h1 h2 h3 h4 h5 => ?_⟩ <;>
    simp only [calcButtonWidth]
  · rw [if_pos h]
  · rw [if_neg (by omega), if_neg h4, if_pos h5]
  · rw [if_neg (by omega), if_neg h4, if_neg (not_le.mpr h5)]

/-- C2 witness: all three branches of the width shrinker at concrete inputs. -/
theorem calcButtonWidth_spec_witness :
    calcButtonWidth 0 10 150 2 50 = 150 ∧
    calcButtonWidth 938 12 150 2 50 = 150 ∧
    calcButtonWidth 938 13 150 2 50 = max 50 ((938 : ℤ).fdiv (ceilDiv 13 2)) :=
  ⟨(calcButtonWidth_spec 0 10 150 2 50).1 (by omega),
   (calcButtonWidth_spec 938 12 150 2 50).2.1 (by omega) (by omega) (by omega)
     (by omega) (by decide),
   (calcButtonWidth_spec 938 13 150 2 50).2.2 (by omega) (by omega) (by omega)
     (by omega) (by decide)⟩

/-- C5 counterexample: the claimed invariant `minItemWidth ≤ effectiveItemWidth`
fails as stated.  With a 1000px container, 1 visible item, configured width 10
and floor 50, all items fit, so the code returns the configured width 10,
which is below the floor 50. -/
theorem calcButtonWidth_bounds_cex :
    calcButtonWidth 1000 1 10 2 50 = 10 ∧ (10 : ℤ) < 50 := by decide

/-- C5 amended: whenever `0 < minWidth ≤ configuredWidth` (the spec's
`LayoutConfig` makes both positive; the floor must not exceed the configured
width), the width shrinker's result lies in `[minWidth, configuredWidth]` on
every branch. -/
theorem calcButtonWidth_bounds (cw vc bw mr mw : ℤ) (hmw : 0 < mw) (hwb : mw ≤ bw) :
    mw ≤ calcButtonWidth cw vc bw mr mw ∧ calcButtonWidth cw vc bw mr mw ≤ bw := by
  simp only [calcButtonWidth]
  split_ifs with h1 h2 h3
  · omega
  · omega
  · omega
  · have hcw : 0 < cw := by omega
    have hmr : 0 < mr := by omega
    have hbw : 0 < bw := by omega
    have hover : max 1 (cw.fdiv bw) * mr < vc := not_le.mp h3
    have hlt : cw.fdiv (ceilDiv vc mr) < bw := shrink_lt_buttonWidth hcw hbw hmr hover
    constructor
    · exact le_max_left _ _
    · exact max_le hwb hlt.le

/-- C5 witness: the bounds at the spec's shrink-to-floor scenario. -/
theorem calcButtonWidth_bounds_witness :
    50 ≤ calcButtonWidth 938 50 150 2 50 ∧ calcButtonWidth 938 50 150 2 50 ≤ 150 :=
  calcButtonWidth_bounds 938 50 150 2 50 (by omega) (by omega)

/-- C6: when the shrinker actually shrinks (count exceeds capacity) and the
result is not floored at `minWidth`, all items fit within the row cap:
`width * ceil(visibleCount / maxRows) ≤ containerWidth`; and in the concrete
938px / 20-item / 150px / 2-row / 50px-floor scenario the width is 93,
`93 * ceil(20/2) ≤ 938`, and the row count is 2. -/
theorem calcButtonWidth_fits_rows (cw vc bw mr mw : ℤ)
    (hvc : 0 < vc) (hcw : 0 < cw) (hmr : 0 < mr) (hbw : bw ≠ 0)
    (hover : max 1 (cw.fdiv bw) * mr < vc)
    (hfloor : mw ≤ cw.fdiv (ceilDiv vc mr)) :
    calcButtonWidth cw vc bw mr mw * ceilDiv vc mr ≤ cw ∧
    calcButtonWidth 938 20 150 2 50 = 93 ∧
    (93 : ℤ) * ceilDiv 20 2 ≤ 938 ∧
    calcAdaptiveRowCount 938 20 150 2 = 2 := by
  refine ⟨?_, by decide, by decide, by decide⟩
  have hres : calcButtonWidth cw vc bw mr mw = cw.fdiv (ceilDiv vc mr) := by
    simp only [calcButtonWidth]
    rw [if_neg (by omega), if_neg hbw, if_neg (not_le.mpr hover)]
    exact max_eq_right hfloor
  rw [hres]
  have hceil_pos : 0 < ceilDiv vc mr := by
    refine (lt_ceilDiv_iff hmr).mpr ?_
    simpa using hvc
  rw [Int.fdiv_eq_ediv _ hceil_pos.le]
  exact Int.ediv_mul_le cw hceil_pos.ne'

/-- C6 witness: the general fit bound applied at the spec's round-trip
scenario (938px container, 20 items, 150px configured, 2 rows, 50px floor). -/
theorem calcButtonWidth_fits_rows_witness :
    calcButtonWidth 938 20 150 2 50 * ceilDiv 20 2 ≤ 938 ∧
    calcButtonWidth 938 20 150 2 50 = 93 ∧
    (93 : ℤ) * ceilDiv 20 2 ≤ 938 ∧
    calcAdaptiveRowCount 938 20 150 2 = 2 :=
  calcButtonWidth_fits_rows 938 20 150 2 50 (by omega) (by omega) (by omega)
    (by omega) (by decide) (by decide)

/-- C7 counterexample: `calcRowHeight` is not well-defined at `rows = 0`.
The source divides by `numberOfRows` with no guard, so `calcRowHeight(80, 0)`
performs a division by zero and yields `Infinity` in JavaScript — a defined
but non-finite value, modelled here as `none`. -/
theorem calcRowHeight_rows_zero_cex : calcRowHeight 80 0 0 = none := by decide

/-- C7 amended: no core function throws, but safe degradation is not universal:
`calcRowHeight` produces a finite result exactly when `rows ≠ 0` (at
`rows = 0` it divides by zero and returns a non-finite value), while
`calcButtonWidth` is total and at `configuredWidth = 0` returns the configured
width `0` unchanged on every branch. -/
theorem helpers_never_throw (ph rows vm cw vc mr mw : ℤ) :
    ((calcRowHeight ph rows vm).isSome = true ↔ rows ≠ 0) ∧
    calcButtonWidth cw vc 0 mr mw = 0 := by
  constructor
  · by_cases h : rows = 0 <;> simp [calcRowHeight, h]
  · simp [calcButtonWidth]

/-- C7 witness: a finite row height at nonzero rows, and the zero-width case
of the shrinker. -/
theorem helpers_never_throw_witness :
    (calcRowHeight 80 3 0).isSome = true ∧ calcButtonWidth 938 10 0 2 50 = 0 :=
  ⟨((helpers_never_throw 80 3 0 938 10 2 50).1).mpr (by omega),
   (helpers_never_throw 80 3 0 938 10 2 50).2⟩

/-- C8: `calcAdaptiveIconSize` returns a positive override unmodified
(no clamping, e.g. `iconSize(60,2,16) = 16`); otherwise it returns
`max(12, floor(rowHeight * ratio))` with
`rowHeight = floor((panelHeight - verticalMargin*rows)/rows)` and
`ratio = 0.25` for `rows ≤ 1`, `0.4` for `rows ≥ 2`.  The auto branch is
stated for `rows ≠ 0`, the only case where the claim's own `rowHeight`
expression (and the JS row height) is a finite number. -/
theorem calcAdaptiveIconSize_spec (ph rows ov vm : ℤ) :
    (0 < ov → calcAdaptiveIconSize ph rows ov vm = some ov) ∧
    (ov ≤ 0 → rows ≠ 0 →
      calcAdaptiveIconSize ph rows ov vm
        = some (max 12 ⌊(((ph - vm * rows).fdiv rows : ℤ) : ℚ)
            * (if rows ≤ 1 then 1 / 4 else 2 / 5)⌋)) ∧
    calcAdaptiveIconSize 60 2 16 0 = some 16 := by
  refine ⟨fun h => ?_, fun h1 h2 => ?_, by decide⟩
  · simp [calcAdaptiveIconSize, h]
  · simp [calcAdaptiveIconSize, calcRowHeight, h2, not_lt.mpr h1]

/-- C8 witness: the override branch at the spec's example and the auto branch
at a concrete compact geometry. -/
theorem calcAdaptiveIconSize_spec_witness :
    calcAdaptiveIconSize 60 2 16 0 = some 16 ∧
    calcAdaptiveIconSize 60 2 0 0
      = some (max 12 ⌊((((60 : ℤ) - 0 * 2).fdiv 2 : ℤ) : ℚ)
          * (if (2 : ℤ) ≤ 1 then 1 / 4 else 2 / 5)⌋) :=
  ⟨(calcAdaptiveIconSize_spec 60 2 16 0).1 (by omega),
   (calcAdaptiveIconSize_spec 60 2 0 0).2.1 (by omega) (by omega)⟩

/-- C9 counterexample: the invariant `iconSize ≥ 12` fails for every value
returned, because a positive user override is returned verbatim:
`calcAdaptiveIconSize(60, 2, 5)` returns `5 < 12`. -/
theorem calcAdaptiveIconSize_below_12_cex :
    calcAdaptiveIconSize 60 2 5 0 = some 5 ∧ (5 : ℤ) < 12 := by decide

/-- C9 amended: every auto-scaled icon size (override ≤ 0, `rows ≠ 0`) is at
least 12 — in particular for all `panelHeight ∈ [1,200]`, `rows ∈ [1,4]` with
override 0 — and every font size is either 0 or lies in `[6,10]`; a positive
icon override, however, is returned verbatim and may be below 12. -/
theorem adaptiveSizes_invariants (ph rows vm ov : ℤ) :
    (ov ≤ 0 → rows ≠ 0 →
      ∃ v, calcAdaptiveIconSize ph rows ov vm = some v ∧ 12 ≤ v) ∧
    (∃ v, calcAdaptiveFontSize ph rows vm = some v ∧ (v = 0 ∨ (6 ≤ v ∧ v ≤ 10))) ∧
    (1 ≤ ph → ph ≤ 200 → 1 ≤ rows → rows ≤ 4 →
      ∃ v, calcAdaptiveIconSize ph rows 0 0 = some v ∧ 12 ≤ v) := by
  have hicon : ∀ o m : ℤ, o ≤ 0 → rows ≠ 0 →
      ∃ v, calcAdaptiveIconSize ph rows o m = some v ∧ 12 ≤ v := by
    intro o m h1 h2
    simp only [calcAdaptiveIconSize, calcRowHeight]
    rw [if_neg (not_lt.mpr h1), if_neg h2]
    exact ⟨_, rfl, le_max_left _ _⟩
  refine ⟨hicon ov vm, ?_, fun hp1 hp2 hr1 hr2 => hicon 0 0 (by omega) (by omega)⟩
  by_cases hr : rows ≤ 1
  · exact ⟨0, by simp [calcAdaptiveFontSize, hr], Or.inl rfl⟩
  · have h2 : rows ≠ 0 := by omega
    simp only [calcAdaptiveFontSize, calcRowHeight]
    rw [if_neg hr, if_neg h2]
    exact ⟨_, rfl, Or.inr ⟨le_max_left _ _, max_le (by norm_num) (min_le_left _ _)⟩⟩

/-- C9 witness: the amended invariant at compact geometry (60px panel, 2 rows)
and at the corners of the quantified range. -/
theorem adaptiveSizes_invariants_witness :
    (∃ v, calcAdaptiveIconSize 60 2 0 0 = some v ∧ 12 ≤ v) ∧
    (∃ v, calcAdaptiveFontSize 60 2 0 = some v ∧ (v = 0 ∨ (6 ≤ v ∧ v ≤ 10))) ∧
    (∃ v, calcAdaptiveIconSize 1 4 0 0 = some v ∧ 12 ≤ v) :=
  ⟨(adaptiveSizes_invariants 60 2 0 0).1 (by omega) (by omega),
   (adaptiveSizes_invariants 60 2 0 0).2.1,
   (adaptiveSizes_invariants 1 4 0 0).2.2 (by omega) (by omega) (by omega) (by omega)⟩

/-- C10 counterexample: the upper bound `rowCount ≤ maxRows` fails as a
universal statement: with `maxRows = 0` the degenerate guard returns `1 > 0`. -/
theorem calcAdaptiveRowCount_bound_cex :
    calcAdaptiveRowCount 1200 5 150 0 = 1 ∧ (0 : ℤ) < 1 := by decide

/-- C10 amended: for fixed container width, item width and row cap the row
planner is monotonically non-decreasing in the item count, and its result is
bounded above by `maxRows` whenever `1 ≤ maxRows` (for `maxRows ≤ 0` the
degenerate guard returns 1, which exceeds the cap); the spec's examples
`rowCount(1200,25,150,2) = 2` and `rowCount(1200,5,150,2) = 1` hold. -/
theorem calcAdaptiveRowCount_monotone (cw bw mr n m : ℤ) :
    (n ≤ m → calcAdaptiveRowCount cw n bw mr ≤ calcAdaptiveRowCount cw m bw mr) ∧
    (1 ≤ mr → calcAdaptiveRowCount cw n bw mr ≤ mr) ∧
    calcAdaptiveRowCount 1200 25 150 2 = 2 ∧
    calcAdaptiveRowCount 1200 5 150 2 = 1 := by
  refine ⟨fun hnm => ?_, fun hmr => ?_, by decide, by decide⟩
  · simp only [calcAdaptiveRowCount]
    split_ifs with h1 h2
    · omega
    · omega
    · omega
    · have hB : (0 : ℤ) < max 1 (cw.fdiv bw) := by
        have := le_max_left 1 (cw.fdiv bw)
        omega
      have := ceilDiv_le_ceilDiv (a := n) (c := m) hB hnm
      omega
  · simp only [calcAdaptiveRowCount]
    split_ifs with h
    · omega
    · omega

/-- C10 witness: monotonicity and the row cap at the spec's examples. -/
theorem calcAdaptiveRowCount_monotone_witness :
    calcAdaptiveRowCount 1200 5 150 2 ≤ calcAdaptiveRowCount 1200 25 150 2 ∧
    calcAdaptiveRowCount 1200 25 150 2 ≤ 2 :=
  ⟨(calcAdaptiveRowCount_monotone 1200 150 2 5 25).1 (by omega),
   (calcAdaptiveRowCount_monotone 1200 150 2 25 25).2.1 (by omega)⟩

/-! ## The grouping resolver -/

theorem scanBack_le (existing : List (Option String)) (k : Option String) :
    ∀ n, scanBack existing k n ≤ existing.length ∨ scanBack existing k n ≤ n := by
  intro n
  induction n with
  | zero => exact Or.inl (le_refl _)
  | succ m ih =>
    simp only [scanBack]
    split_ifs with h
    · exact Or.inr (le_refl _)
    · rcases ih with h2 | h2
      · exact Or.inl h2
      · exact Or.inr (by omega)

theorem scanBack_no_match (existing : List (Option String)) (k : Option String) :
    ∀ n, (∀ j, j < n → existing.get? j ≠ some k) →
      scanBack existing k n = existing.length := by
  intro n
  induction n with
  | zero => intro _; rfl
  | succ m ih =>
    intro hno
    simp only [scanBack]
    rw [if_neg (hno m (by omega))]
    exact ih (fun j hj => hno j (by omega))

theorem scanBack_match (existing : List (Option String)) (k : Option String) :
    ∀ n j, j < n → existing.get? j = some k →
      (∀ i, j < i → i < n → existing.get? i ≠ some k) →
      scanBack existing k n = j + 1 := by
  intro n
  induction n with
  | zero => intro j hj _ _; omega
  | succ m ih =>
    intro j hj hmatch hmax
    simp only [scanBack]
    by_cases h : existing.get? m = some k
    · rw [if_pos h]
      have : j = m := by
        by_contra hne
        exact hmax m (by omega) (by omega) h
      omega
    · rw [if_neg h]
      have hjm : j ≠ m := fun he => h (he ▸ hmatch)
      exact ih j (by omega) hmatch (fun i h1 h2 => hmax i h1 (by omega))

/-- C4: the grouping resolver appends at the end (returns the list length)
when the new key is falsy or no existing key equals it; otherwise it returns
one past the largest index whose key equals the new key; and its result never
exceeds the list length (being a `ℕ`, it is also never below 0). -/
theorem calcGroupedInsertionIndex_spec (existing : List (Option String))
    (newKey : Option String) :
    (jsFalsy newKey = true →
      calcGroupedInsertionIndex existing newKey = existing.length) ∧
    ((∀ x ∈ existing, x ≠ newKey) →
      calcGroupedInsertionIndex existing newKey = existing.length) ∧
    (jsFalsy newKey = false →
      ∀ i : Fin existing.length, existing.get i = newKey →
        ∃ j : Fin existing.length, existing.get j = newKey
          ∧ (∀ l : Fin existing.length, existing.get l = newKey → l.val ≤ j.val)
          ∧ calcGroupedInsertionIndex existing newKey = j.val + 1) ∧
    calcGroupedInsertionIndex existing newKey ≤ existing.length := by
  refine ⟨fun h => ?_, fun hno => ?_, fun hf i hi => ?_, ?_⟩
  · simp [calcGroupedInsertionIndex, h]
  · by_cases hf : jsFalsy newKey = true
    · simp [calcGroupedInsertionIndex, hf]
    · have hf2 : jsFalsy newKey = false := by
        revert hf; cases jsFalsy newKey <;> simp
      simp only [calcGroupedInsertionIndex, hf2, Bool.false_eq_true, if_false]
      refine scanBack_no_match _ _ _ (fun j hj hsome => ?_)
      exact hno _ (List.get?_mem hsome) rfl
  · have hPi : existing.get? i.val = some newKey := by
      rw [List.get?_eq_get i.isLt]
      exact congrArg some hi
    have hPJ : existing.get? (Nat.findGreatest
        (fun m => existing.get? m = some newKey) existing.length) = some newKey :=
      Nat.findGreatest_spec (P := fun m => existing.get? m = some newKey)
        (le_of_lt i.isLt) hPi
    obtain ⟨hJlt, hJget⟩ := List.get?_eq_some.mp hPJ
    refine ⟨⟨_, hJlt⟩, hJget, fun l hl => ?_, ?_⟩
    · refine Nat.le_findGreatest (P := fun m => existing.get? m = some newKey)
        (le_of_lt l.isLt) ?_
      show existing.get? l.val = some newKey
      rw [List.get?_eq_get l.isLt]
      exact congrArg some hl
    · simp only [calcGroupedInsertionIndex, hf, Bool.false_eq_true, if_false]
      refine scanBack_match _ _ _ _ hJlt hPJ (fun i2 h1 h2 hsome => ?_)
      have := Nat.le_findGreatest (P := fun m => existing.get? m = some newKey)
        (le_of_lt h2) hsome
      omega
  · by_cases hf : jsFalsy newKey = true
    · simp [calcGroupedInsertionIndex, hf]
    · have hf2 : jsFalsy newKey = false := by
        revert hf; cases jsFalsy newKey <;> simp
      simp only [calcGroupedInsertionIndex, hf2, Bool.false_eq_true, if_false]
      rcases scanBack_le existing newKey existing.length with h | h
      · exact h
      · exact h

/-- C4 witness: the resolver at the spec's examples — non-consecutive last
match, falsy key, and a no-match scan. -/
theorem calcGroupedInsertionIndex_spec_witness :
    calcGroupedInsertionIndex [some "a", some "b"] none = 2 ∧
    calcGroupedInsertionIndex [some "f", some "t"] (some "n") = 2 ∧
    (∃ j : Fin ([some "a", some "b", some "a"] : List (Option String)).length,
      [some "a", some "b", some "a"].get j = some "a"
        ∧ (∀ l : Fin ([some "a", some "b", some "a"] : List (Option String)).length,
            [some "a", some "b", some "a"].get l = some "a" → l.val ≤ j.val)
        ∧ calcGroupedInsertionIndex [some "a", some "b", some "a"] (some "a")
            = j.val + 1) :=
  ⟨(calcGroupedInsertionIndex_spec [some "a", some "b"] none).1 rfl,
   (calcGroupedInsertionIndex_spec [some "f", some "t"] (some "n")).2.1
     (by intro x hx; fin_cases hx <;> simp),
   (calcGroupedInsertionIndex_spec [some "a", some "b", some "a"] (some "a")).2.2.1
     rfl ⟨0, by decide⟩ rfl⟩

/-! ## The drag locator -/

theorem rectDist_nonneg (r : Rect) (cx cy : ℚ) : 0 ≤ rectDist r cx cy := by
  simp only [rectDist]
  exact add_nonneg (mul_self_nonneg _) (mul_self_nonneg _)

/-- Invariant of the scanning loop: starting from an established best
`(pos, m)` with `0 ≤ m`, the loop either keeps `pos` (when no remaining
distance beats `m`) or returns `i + j` for the first index `j` of the
remaining list achieving its minimum, that minimum beating `m`. -/
theorem dragLoop_spec (cx cy : ℚ) (l : List Rect) :
    ∀ (i pos : ℤ) (m : ℚ), 0 ≤ m →
      ((∀ r ∈ l, m ≤ rectDist r cx cy) ∧ dragLoop cx cy l i pos m = pos) ∨
      (∃ j : Fin l.length,
        dragLoop cx cy l i pos m = i + j.val ∧
        rectDist (l.get j) cx cy < m ∧
        (∀ j2 : Fin l.length, rectDist (l.get j) cx cy ≤ rectDist (l.get j2) cx cy) ∧
        (∀ j2 : Fin l.length, j2.val < j.val →
          rectDist (l.get j) cx cy < rectDist (l.get j2) cx cy)) := by
  induction l with
  | nil =>
    intro i pos m hm
    exact Or.inl ⟨by simp, rfl⟩
  | cons r rest ih =>
    intro i pos m hm
    have hd0 : 0 ≤ rectDist r cx cy := rectDist_nonneg r cx cy
    by_cases hlt : rectDist r cx cy < m
    · have hstep : dragLoop cx cy (r :: rest) i pos m
          = dragLoop cx cy rest (i + 1) i (rectDist r cx cy) := by
        simp only [dragLoop]
        rw [if_pos (Or.inl hlt)]
      rcases ih (i + 1) i (rectDist r cx cy) hd0 with ⟨hall, hres⟩ |
        ⟨j, hres, hjlt, hjle, hjmin⟩
      · refine Or.inr ⟨⟨0, by simp⟩, ?_, ?_, ?_, ?_⟩
        · rw [hstep, hres]
          show i = i + ((0 : ℕ) : ℤ)
          simp
        · exact hlt
        · intro j2
          rcases j2 with ⟨jv, hjv⟩
          cases jv with
          | zero => exact le_refl _
          | succ k => exact hall _ (List.get_mem rest k (by simpa using hjv))
        · intro j2 hj2
          have hk : j2.val < 0 := hj2
          omega
      · have hjsucc : j.val + 1 < (r :: rest).length := by
          have := j.isLt
          simp only [List.length_cons]
          omega
        refine Or.inr ⟨⟨j.val + 1, hjsucc⟩, ?_, ?_, ?_, ?_⟩
        · rw [hstep, hres]
          show i + 1 + (j.val : ℤ) = i + ((j.val + 1 : ℕ) : ℤ)
          push_cast
          ring
        · exact lt_trans hjlt hlt
        · intro j2
          rcases j2 with ⟨jv, hjv⟩
          cases jv with
          | zero => exact hjlt.le
          | succ k => exact hjle ⟨k, by simpa using hjv⟩
        · intro j2 hj2
          rcases j2 with ⟨jv, hjv⟩
          cases jv with
          | zero => exact hjlt
          | succ k =>
            have hk : k + 1 < j.val + 1 := hj2
            refine hjmin ⟨k, by simpa using hjv⟩ ?_
            show k < j.val
            omega
    · have hge : m ≤ rectDist r cx cy := not_lt.mp hlt
      have hm1 : ¬(m = -1) := by
        intro h
        rw [h] at hm
        linarith
      have hstep : dragLoop cx cy (r :: rest) i pos m
          = dragLoop cx cy rest (i + 1) pos m := by
        simp only [dragLoop]
        rw [if_neg (not_or.mpr ⟨hlt, hm1⟩)]
      rcases ih (i + 1) pos m hm with ⟨hall, hres⟩ | ⟨j, hres, hjlt, hjle, hjmin⟩
      · refine Or.inl ⟨?_, by rw [hstep, hres]⟩
        intro x hx
        rcases List.mem_cons.mp hx with h | h
        · rw [h]
          exact hge
        · exact hall x h
      · have hjsucc : j.val + 1 < (r :: rest).length := by
          have := j.isLt
          simp only [List.length_cons]
          omega
        refine Or.inr ⟨⟨j.val + 1, hjsucc⟩, ?_, ?_, ?_, ?_⟩
        · rw [hstep, hres]
          show i + 1 + (j.val : ℤ) = i + ((j.val + 1 : ℕ) : ℤ)
          push_cast
          ring
        · exact hjlt
        · intro j2
          rcases j2 with ⟨jv, hjv⟩
          cases jv with
          | zero => exact le_trans hjlt.le hge
          | succ k => exact hjle ⟨k, by simpa using hjv⟩
        · intro j2 hj2
          rcases j2 with ⟨jv, hjv⟩
          cases jv with
          | zero => exact lt_of_lt_of_le hjlt hge
          | succ k =>
            have hk : k + 1 < j.val + 1 := hj2
            refine hjmin ⟨k, by simpa using hjv⟩ ?_
            show k < j.val
            omega

/-- C3: the drag locator returns `-1` on an empty rect list; on a non-empty
list it returns the smallest index minimizing the full 2D squared Euclidean
distance from the cursor to the rect's center (ties first-seen-wins: every
earlier index has strictly larger distance); and the result is identical for
`isVertical = true` and `isVertical = false`. -/
theorem calcDragInsertionIndex_spec (rects : List Rect) (cx cy : ℚ) (iv : Bool) :
    (rects = [] → calcDragInsertionIndex rects cx cy iv = -1) ∧
    (rects ≠ [] → ∃ j : Fin rects.length,
      calcDragInsertionIndex rects cx cy iv = j.val ∧
      (∀ j2 : Fin rects.length,
        rectDist (rects.get j) cx cy ≤ rectDist (rects.get j2) cx cy) ∧
      (∀ j2 : Fin rects.length, j2.val < j.val →
        rectDist (rects.get j) cx cy < rectDist (rects.get j2) cx cy)) ∧
    calcDragInsertionIndex rects cx cy true = calcDragInsertionIndex rects cx cy false := by
  refine ⟨fun h => by rw [h]; rfl, ?_, rfl⟩
  intro hne
  obtain ⟨r, rest, rfl⟩ := List.exists_cons_of_ne_nil hne
  have h0 : calcDragInsertionIndex (r :: rest) cx cy iv
      = dragLoop cx cy rest 1 0 (rectDist r cx cy) := by
    simp only [calcDragInsertionIndex, dragLoop, or_true, if_true]
    norm_num
  rcases dragLoop_spec cx cy rest 1 0 (rectDist r cx cy) (rectDist_nonneg r cx cy)
    with ⟨hall, hres⟩ | ⟨j, hres, hjlt, hjle, hjmin⟩
  · refine ⟨⟨0, by simp⟩, ?_, ?_, ?_⟩
    · rw [h0, hres]
      rfl
    · intro j2
      rcases j2 with ⟨jv, hjv⟩
      cases jv with
      | zero => exact le_refl _
      | succ k => exact hall _ (List.get_mem rest k (by simpa using hjv))
    · intro j2 hj2
      have hk : j2.val < 0 := hj2
      omega
  · have hjsucc : j.val + 1 < (r :: rest).length := by
      have := j.isLt
      simp only [List.length_cons]
      omega
    refine ⟨⟨j.val + 1, hjsucc⟩, ?_, ?_, ?_⟩
    · rw [h0, hres]
      show (1 : ℤ) + (j.val : ℤ) = ((j.val + 1 : ℕ) : ℤ)
      push_cast
      ring
    · intro j2
      rcases j2 with ⟨jv, hjv⟩
      cases jv with
      | zero => exact hjlt.le
      | succ k => exact hjle ⟨k, by simpa using hjv⟩
    · intro j2 hj2
      rcases j2 with ⟨jv, hjv⟩
      cases jv with
      | zero => exact hjlt
      | succ k =>
        have hk : k + 1 < j.val + 1 := hj2
        refine hjmin ⟨k, by simpa using hjv⟩ ?_
        show k < j.val
        omega

/-- C3 witness: the locator applied to the spec's scenario — two 150×30 rows
stacked at y=0 and y=30, cursor at (75,40) — plus the empty list. -/
theorem calcDragInsertionIndex_spec_witness :
    calcDragInsertionIndex ([] : List Rect) 5 5 true = -1 ∧
    ∃ j : Fin ([⟨0, 0, 150, 30⟩, ⟨0, 30, 150, 30⟩] : List Rect).length,
      calcDragInsertionIndex [⟨0, 0, 150, 30⟩, ⟨0, 30, 150, 30⟩] 75 40 false = j.val ∧
      (∀ j2 : Fin ([⟨0, 0, 150, 30⟩, ⟨0, 30, 150, 30⟩] : List Rect).length,
        rectDist (([⟨0, 0, 150, 30⟩, ⟨0, 30, 150, 30⟩] : List Rect).get j) 75 40
          ≤ rectDist (([⟨0, 0, 150, 30⟩, ⟨0, 30, 150, 30⟩] : List Rect).get j2) 75 40) ∧
      (∀ j2 : Fin ([⟨0, 0, 150, 30⟩, ⟨0, 30, 150, 30⟩] : List Rect).length,
        j2.val < j.val →
        rectDist (([⟨0, 0, 150, 30⟩, ⟨0, 30, 150, 30⟩] : List Rect).get j) 75 40
          < rectDist (([⟨0, 0, 150, 30⟩, ⟨0, 30, 150, 30⟩] : List Rect).get j2) 75 40) :=
  ⟨(calcDragInsertionIndex_spec ([] : List Rect) 5 5 true).1 rfl,
   (calcDragInsertionIndex_spec [⟨0, 0, 150, 30⟩, ⟨0, 30, 150, 30⟩] 75 40 false).2.1
     (List.cons_ne_nil _ _)⟩

end MultiRow
